import Mathlib

/-!
# Multithreaded LAME frontend: a shallow embedding and its properties

The development embeds the two programs of the repository,

* `src/main.c`  (namespace `MainC`): POSIX threads worker pool, fixed 44-byte header,
* `src/main.cc` (namespace `MainCC`): queue based pool, chunk scanning parser,

as executable Lean definitions and proves properties of them.

Conventions of the embedding.

* A byte is a `Nat`; every decoder reduces it modulo 256.  A file is a `List Nat`.
* `unsigned`/`uint32_t` arithmetic is `Nat` arithmetic modulo `2 ^ 32`.
* C strings are `String`s (or their character lists) without the terminating NUL;
  fixed `char[4]` fields are lists of four bytes.
* The LAME encoder and the operating system are external: the encoder is a parameter
  of the embedding, the file system is an explicit value.
-/

namespace MainC

/-! ## Lists, errors -/

/-- The record `Error` of `src/main.c`: the file name and a message. -/
structure Error where
  filename : String
  message : String
deriving DecidableEq, Repr

/-- Function `error_new`: allocate an error value holding copies of both strings. -/
def error_new (filename message : String) : Error :=
  { filename := filename, message := message }

/-- Function `list_prepend`: a fresh cell whose `next` is `NULL`, which is rebound to the
old list when that list is not `NULL`; the fresh cell is returned. -/
def list_prepend {α : Type} (list : List α) (data : α) : List α :=
  match list with
  | [] => [data]
  | _ :: _ => data :: list

/-! ## The worker pool -/

/-- A created thread (`pthread_t`): its identity and the value its start routine returns,
which is what `pthread_join` hands back. -/
structure Thread where
  tid : Nat
  result : Option Error
deriving DecidableEq, Repr

/-- The record `ThreadPool` (mutex and condition variable are represented by the atomicity
of the steps below). -/
structure ThreadPool where
  threads : List Thread
  max_threads : Nat
  num_busy : Nat
deriving DecidableEq, Repr

/-- The pool together with the runner threads that were created by `pthread_create` and
have not yet executed the locked `num_busy--` of `thread_pool_runner`. -/
structure PoolState where
  pool : ThreadPool
  live : List Nat
deriving DecidableEq, Repr

/-- Function `thread_pool_new`, with the value of `get_num_cores ()` as argument. -/
def thread_pool_new (num_cores : Nat) : ThreadPool :=
  { threads := [], max_threads := num_cores % 2 ^ 32, num_busy := 0 }

/-- The state right after `thread_pool_new`: no thread exists. -/
def pool_start (num_cores : Nat) : PoolState :=
  { pool := thread_pool_new num_cores, live := [] }

/-- Function `thread_pool_submit`, as one atomic step under the mutex.  While
`num_busy == max_threads` the caller sits in `pthread_cond_wait` and the step is not
enabled (`none`).  Otherwise a thread running `func data` is created, `num_busy` is
incremented (unsigned) and the handle is prepended to `threads`. -/
def thread_pool_submit {α : Type} (func : α → Option Error) (s : PoolState) (data : α) :
    Option PoolState :=
  if s.pool.num_busy = s.pool.max_threads then none
  else
    let thread : Thread := { tid := s.pool.threads.length, result := func data }
    some { pool := { threads := list_prepend s.pool.threads thread
                     max_threads := s.pool.max_threads
                     num_busy := (s.pool.num_busy + 1) % 2 ^ 32 }
           live := thread.tid :: s.live }

/-- The statement `n--` on an `unsigned`: zero wraps around to `2 ^ 32 - 1`. -/
def unsigned_dec (n : Nat) : Nat :=
  if n = 0 then 2 ^ 32 - 1 else n - 1

/-- The locked section of `thread_pool_runner`, executed by thread `tid` once its job
function has returned: `num_busy--` (unsigned).  Only a created thread that has not yet
done so can take this step. -/
def thread_pool_runner (s : PoolState) (tid : Nat) : Option PoolState :=
  if tid ∈ s.live then
    some { pool := { threads := s.pool.threads
                     max_threads := s.pool.max_threads
                     num_busy := unsigned_dec s.pool.num_busy }
           live := s.live.erase tid }
  else none

/-- The two kinds of atomic steps of the pool. -/
inductive Event (α : Type) where
  | submit (data : α)
  | finish (tid : Nat)
deriving DecidableEq, Repr

/-- One step of the pool. -/
def pool_step {α : Type} (func : α → Option Error) (s : PoolState) : Event α → Option PoolState
  | .submit data => thread_pool_submit func s data
  | .finish tid => thread_pool_runner s tid

/-- Run a sequence of steps; `none` when some step of the sequence is not enabled. -/
def pool_run {α : Type} (func : α → Option Error) : PoolState → List (Event α) → Option PoolState
  | s, [] => some s
  | s, e :: es =>
    match pool_step func s e with
    | none => none
    | some s1 => pool_run func s1 es

/-- The job arguments submitted along a sequence of steps, in submission order. -/
def submitted {α : Type} : List (Event α) → List α
  | [] => []
  | .submit data :: es => data :: submitted es
  | .finish _ :: es => submitted es

/-- The line `fprintf (stderr, "Error: %s: %s\n", ...)` of `thread_pool_wait`. -/
def error_line (error : Error) : String :=
  "Error: " ++ error.filename ++ ": " ++ error.message ++ "\n"

/-- What `thread_pool_wait` does: the handles joined, in order, and the lines printed. -/
structure WaitLog where
  joined : List Nat
  stderr : List String
deriving DecidableEq, Repr

/-- The loop of `thread_pool_wait` over the cells of the handle list. -/
def thread_pool_wait_loop : List Thread → WaitLog
  | [] => { joined := [], stderr := [] }
  | it :: next =>
    let rest := thread_pool_wait_loop next
    match it.result with
    | none => { joined := it.tid :: rest.joined, stderr := rest.stderr }
    | some error => { joined := it.tid :: rest.joined, stderr := error_line error :: rest.stderr }

/-- Function `thread_pool_wait`. -/
def thread_pool_wait (pool : ThreadPool) : WaitLog :=
  thread_pool_wait_loop pool.threads

/-! ## C library and operating system -/

/-- Function `strncmp` of the C library on byte strings (`unsigned char` comparison);
reading past the end of a list yields the terminating NUL. -/
def strncmp : List Nat → List Nat → Nat → Int
  | _, _, 0 => 0
  | s1, s2, n + 1 =>
    let c1 := s1.headD 0
    let c2 := s2.headD 0
    if c1 ≠ c2 then (c1 : Int) - (c2 : Int)
    else if c1 = 0 then 0
    else strncmp s1.tail s2.tail n

/-- Function `strcmp` of the C library on NUL-terminated strings given without the NUL. -/
def strcmp : List Char → List Char → Int
  | [], [] => 0
  | [], c2 :: _ => - (c2.toNat : Int)
  | c1 :: _, [] => (c1.toNat : Int)
  | c1 :: s1, c2 :: s2 => if c1 = c2 then strcmp s1 s2 else (c1.toNat : Int) - (c2.toNat : Int)

/-- The file-type mask of `st_mode` (`<sys/stat.h>`, the value common to Linux, the BSDs and
the Microsoft runtime). -/
def S_IFMT : Nat := 0o170000

/-- The `st_mode` file-type code of a regular file. -/
def S_IFREG : Nat := 0o100000

/-- The `st_mode` file-type code of a socket. -/
def S_IFSOCK : Nat := 0o140000

/-- The test `S_ISREG` of `<sys/stat.h>`: the file type is exactly `S_IFREG`. -/
def S_ISREG (st_mode : Nat) : Bool :=
  st_mode &&& S_IFMT == S_IFREG

/-- The file system: the contents of the file at a path, if there is one. -/
def FileSystem : Type := String → Option (List Nat)

/-- The effect of `fopen (path, "wb")` followed by writing `contents` and `fclose`: the
file at `path` exists and holds exactly `contents`. -/
def FileSystem.store (fs : FileSystem) (path : String) (contents : List Nat) : FileSystem :=
  fun p => if p = path then some contents else fs p

/-- A stream opened for reading: the bytes of the file and the read position. -/
structure FILE where
  data : List Nat
  pos : Nat
deriving DecidableEq, Repr

/-- Function `fread (ptr, size, nmemb, stream)`: the bytes stored at `ptr`, the number of
complete items read, and the advanced stream. -/
def fread (size nmemb : Nat) (stream : FILE) : List Nat × Nat × FILE :=
  let bytes := (stream.data.drop stream.pos).take (size * nmemb)
  (bytes, bytes.length / size, { data := stream.data, pos := stream.pos + bytes.length })

/-! ## The directory scanner -/

/-- Function `is_potential_wav_file`, with the result of `stat (path, &info)` as a lookup
`stat`: `none` when `stat` fails, otherwise `info.st_mode`. -/
def is_potential_wav_file (stat : String → Option Nat) (path : String) : Int :=
  match stat path with
  | none => 0
  | some st_mode =>
    if st_mode &&& S_IFREG = 0 ∨ path.data.length < 4 then 0
    else if strcmp (path.data.drop (path.data.length - 4)) ".wav".data = 0 then 1 else 0

/-- Function `path_join` (POSIX branch): `"%s/%s"`. -/
def path_join (pfx basename : String) : String :=
  pfx ++ "/" ++ basename

/-- The `readdir` loop of `get_valid_file_names` over the remaining directory entries. -/
def get_valid_file_names_loop (stat : String → Option Nat) (root : String) :
    List String → List String → List String
  | [], list => list
  | d_name :: entries, list =>
    let path := path_join root d_name
    if is_potential_wav_file stat path ≠ 0 then
      get_valid_file_names_loop stat root entries (list_prepend list path)
    else
      get_valid_file_names_loop stat root entries list

/-- Function `get_valid_file_names` (POSIX branch), with `opendir`/`readdir` as a lookup
giving the entry names of a directory, `none` when `opendir` fails. -/
def get_valid_file_names (stat : String → Option Nat) (opendir : String → Option (List String))
    (root : String) : List String :=
  match opendir root with
  | none => []
  | some entries => get_valid_file_names_loop stat root entries []

/-! ## The record `WaveHeader` of `src/main.c` -/

/-- The four bytes at offset `off` of a memory image. -/
def bytes4 (m : List Nat) (off : Nat) : List Nat :=
  ((m.drop off).take 4).map (fun b => b % 256)

/-- The little-endian `uint16_t` at offset `off` of a memory image. -/
def le16 (m : List Nat) (off : Nat) : Nat :=
  m.getD off 0 % 256 + 256 * (m.getD (off + 1) 0 % 256)

/-- The little-endian `uint32_t` at offset `off` of a memory image. -/
def le32 (m : List Nat) (off : Nat) : Nat :=
  m.getD off 0 % 256 + 256 * (m.getD (off + 1) 0 % 256) +
    65536 * (m.getD (off + 2) 0 % 256) + 16777216 * (m.getD (off + 3) 0 % 256)

/-- The record `WaveHeader`: 44 bytes without padding. -/
structure WaveHeader where
  riff_chunk_id : List Nat
  riff_chunk_size : Nat
  riff_type : List Nat
  fmt_signature : List Nat
  fmt_length : Nat
  fmt_tag : Nat
  fmt_num_channels : Nat
  fmt_sample_rate : Nat
  fmt_frame_rate : Nat
  fmt_frame_size : Nat
  fmt_bits_per_sample : Nat
  data_signature : List Nat
  data_length : Nat
deriving DecidableEq, Repr

/-- The value of a `WaveHeader` object whose 44 bytes of memory are `m` (little-endian
target). -/
def WaveHeader.ofBytes (m : List Nat) : WaveHeader :=
  { riff_chunk_id := bytes4 m 0
    riff_chunk_size := le32 m 4
    riff_type := bytes4 m 8
    fmt_signature := bytes4 m 12
    fmt_length := le32 m 16
    fmt_tag := le16 m 20
    fmt_num_channels := le16 m 22
    fmt_sample_rate := le32 m 24
    fmt_frame_rate := le32 m 28
    fmt_frame_size := le16 m 32
    fmt_bits_per_sample := le16 m 34
    data_signature := bytes4 m 36
    data_length := le32 m 40 }

/-- The literal `"RIFF"`. -/
def RIFF : List Nat := [82, 73, 70, 70]

/-- The literal `"WAVE"`. -/
def WAVE : List Nat := [87, 65, 86, 69]

/-- The literal `"fmt "`. -/
def FMT_ : List Nat := [102, 109, 116, 32]

/-- The literal `"data"`. -/
def DATA : List Nat := [100, 97, 116, 97]

/-! ## The file task `encode_mp3` of `src/main.c` -/

/-- The constant `FRAME_SIZE`. -/
def FRAME_SIZE : Int := 1152

/-- The largest `int`. -/
def INT_MAX : Int := 2147483647

/-- Conversion of an `unsigned` value to `int` (two's complement). -/
def int_of_unsigned (u : Nat) : Int :=
  if u < 2147483648 then (u : Int) else (u : Int) - 4294967296

/-- The settings handed to LAME by the `lame_set_*` calls. -/
structure LameConfig where
  num_channels : Nat
  in_samplerate : Nat
  out_samplerate : Nat
  mono : Bool
  quality : Nat
deriving DecidableEq, Repr

/-- The external encoder library, with an encoder state of type `σ`.  The encode
functions receive the memory from the address they are given to the end of the sample
buffer and the number of sample groups; they yield their return value, the contents of
`out_data` and the new encoder state. -/
structure Lame (σ : Type) where
  lame_init : σ
  lame_init_params : σ → LameConfig → Int × σ
  lame_encode_buffer : σ → List Nat → Int → Int → Int × List Nat × σ
  lame_encode_buffer_interleaved : σ → List Nat → Int → Int → Int × List Nat × σ
  lame_encode_flush : σ → Int → Int × List Nat × σ

/-- One call of an encode function in the loop: which function, the index `current` of
the first 16-bit element handed over, and `read`, the number of sample groups. -/
structure EncodeCall where
  mono : Bool
  current : Int
  read : Int
deriving DecidableEq, Repr

/-- How an execution of `encode_mp3` ends: it returns an error pointer (`none` is `NULL`),
or it is killed by a null stream or by an integer division by zero, or it runs into
signed overflow of `current`. -/
inductive Outcome where
  | returned (error : Option Error)
  | null_stream
  | division_by_zero
  | signed_overflow
deriving DecidableEq, Repr

/-- The state threaded through the encode loop: encoder, bytes written to the
destination so far, encode calls so far. -/
structure Encoding (σ : Type) where
  lame : σ
  mp3 : List Nat
  calls : List EncodeCall

/-- The statement `if (encoded > 0) fwrite (out_data, encoded, 1, mp3)`. -/
def write_encoded (mp3 : List Nat) (encoded : Int) (out_data : List Nat) : List Nat :=
  if encoded > 0 then mp3 ++ out_data.take encoded.toNat else mp3

/-- The loop `for (current = 0; current < num_samples;)` of `encode_mp3`, by fuel.
Result `none`: fuel exhausted; otherwise the final state and whether `current` stayed
within `int` (`true`) or its increment overflowed (`false`). -/
def encode_loop {σ : Type} (L : Lame σ) (is_mono : Bool) (in_data : List Nat)
    (out_length num_samples : Int) : Nat → Int → Encoding σ → Option (Bool × Encoding σ)
  | 0, _, _ => none
  | fuel + 1, current, st =>
    if current < num_samples then
      let read := min FRAME_SIZE (num_samples - current)
      let pcm := in_data.drop (2 * current.toNat)
      let r := if is_mono then L.lame_encode_buffer st.lame pcm read out_length
               else L.lame_encode_buffer_interleaved st.lame pcm read out_length
      let st1 : Encoding σ :=
        { lame := r.2.2
          mp3 := write_encoded st.mp3 r.1 r.2.1
          calls := st.calls ++ [{ mono := is_mono, current := current, read := read }] }
      let next := current + (if is_mono then FRAME_SIZE else FRAME_SIZE * 2)
      if next > INT_MAX then some (false, st1)
      else encode_loop L is_mono in_data out_length num_samples fuel next st1
    else some (true, st)

/-- The destination path: `strdup (wav_path)` with its last three characters overwritten
by `"mp3"` (paths of at least three characters, as the scanner delivers). -/
def mp3_path_of (wav_path : String) : String :=
  String.mk (wav_path.data.take (wav_path.data.length - 3) ++ "mp3".data)

/-- What an execution of `encode_mp3` leaves behind: how it ended, the file system, and
the encode calls it made. -/
structure Run where
  outcome : Outcome
  fs : FileSystem
  calls : List EncodeCall

/-- Function `encode_mp3` of `src/main.c`.  `stack` is the indeterminate initial content
of the 44 bytes of the local `header`, which `fread` overwrites as far as the file
reaches.  Allocation and the opening of the destination are taken to succeed. -/
def encode_mp3 {σ : Type} (L : Lame σ) (stack : List Nat) (fs : FileSystem)
    (wav_path : String) : Run :=
  let mp3_path := mp3_path_of wav_path
  let lame := L.lame_init
  -- fopen (mp3_path, "wb") creates or truncates the destination
  let fs1 := fs.store mp3_path []
  match fs wav_path with
  | none => { outcome := .null_stream, fs := fs1, calls := [] }
  | some _ =>
    let wav : FILE := { data := (fs1 wav_path).getD [], pos := 0 }
    let h := fread 44 1 wav
    let header := WaveHeader.ofBytes (h.1 ++ stack.drop h.1.length)
    if strncmp header.riff_chunk_id RIFF 4 ≠ 0 ∨ strncmp header.riff_type WAVE 4 ≠ 0 ∨
        strncmp header.fmt_signature FMT_ 4 ≠ 0 ∨ strncmp header.data_signature DATA 4 ≠ 0 then
      { outcome := .returned (some (error_new wav_path "Invalid data format"))
        fs := fs1, calls := [] }
    else if header.fmt_tag ≠ 1 then
      { outcome := .returned (some (error_new wav_path "Non-PCM data not supported"))
        fs := fs1, calls := [] }
    else if header.fmt_bits_per_sample ≠ 16 then
      { outcome := .returned
          (some (error_new wav_path "PCM data other than 16 bits not supported"))
        fs := fs1, calls := [] }
    else
      let out_length : Int := (header.fmt_num_channels : Int) * FRAME_SIZE * 2
      let d := fread 1 header.data_length h.2.2
      let in_data := d.1
      let read := d.2.1
      let is_mono : Bool := header.fmt_num_channels == 1
      if header.data_length ≠ read then
        { outcome := .returned (some (error_new wav_path "Not enough data to read"))
          fs := fs1, calls := [] }
      else
        let p := L.lame_init_params lame
          { num_channels := header.fmt_num_channels
            in_samplerate := header.fmt_sample_rate
            out_samplerate := header.fmt_sample_rate
            mono := is_mono
            quality := 3 }
        if p.1 < 0 then
          { outcome := .returned (some (error_new wav_path "LAME initialization failed"))
            fs := fs1, calls := [] }
        else if header.fmt_frame_size = 0 then
          { outcome := .division_by_zero, fs := fs1, calls := [] }
        else
          let num_samples := int_of_unsigned (header.data_length / header.fmt_frame_size)
          match encode_loop L is_mono in_data out_length num_samples (num_samples.toNat + 1) 0
              { lame := p.2, mp3 := [], calls := [] } with
          | none => { outcome := .signed_overflow, fs := fs1, calls := [] }
          | some (false, st) =>
            { outcome := .signed_overflow, fs := fs.store mp3_path st.mp3, calls := st.calls }
          | some (true, st) =>
            let f := L.lame_encode_flush st.lame out_length
            { outcome := .returned none
              fs := fs.store mp3_path (write_encoded st.mp3 f.1 f.2.1)
              calls := st.calls }

/-- The error kind `InvalidFormat` as `encode_mp3` returns it. -/
def invalid_format (wav_path : String) : Outcome :=
  .returned (some (error_new wav_path "Invalid data format"))

/-- The error kind `UnsupportedCodec` as `encode_mp3` returns it. -/
def unsupported_codec (wav_path : String) : Outcome :=
  .returned (some (error_new wav_path "Non-PCM data not supported"))

/-- The error kind `UnsupportedBitDepth` as `encode_mp3` returns it. -/
def unsupported_bit_depth (wav_path : String) : Outcome :=
  .returned (some (error_new wav_path "PCM data other than 16 bits not supported"))

/-- The error kind `TruncatedFile` as `encode_mp3` returns it. -/
def truncated_file (wav_path : String) : Outcome :=
  .returned (some (error_new wav_path "Not enough data to read"))

/-- The error kind `EncoderInitFailed` as `encode_mp3` returns it. -/
def encoder_init_failed (wav_path : String) : Outcome :=
  .returned (some (error_new wav_path "LAME initialization failed"))

/-- All four structural markers of a header match. -/
def markers_match (header : WaveHeader) : Prop :=
  header.riff_chunk_id = RIFF ∧ header.riff_type = WAVE ∧ header.fmt_signature = FMT_ ∧
    header.data_signature = DATA

instance (header : WaveHeader) : Decidable (markers_match header) :=
  inferInstanceAs (Decidable (_ ∧ _ ∧ _ ∧ _))

/-- A header passes the validation of `encode_mp3`: markers, tag 1, 16 bits. -/
def header_valid (header : WaveHeader) : Prop :=
  markers_match header ∧ header.fmt_tag = 1 ∧ header.fmt_bits_per_sample = 16

instance (header : WaveHeader) : Decidable (header_valid header) :=
  inferInstanceAs (Decidable (_ ∧ _ ∧ _))

/-! ## Sample data -/

/-- The two bytes of a little-endian `uint16_t`. -/
def enc16 (n : Nat) : List Nat :=
  [n % 256, n / 256 % 256]

/-- The four bytes of a little-endian `uint32_t`. -/
def enc32 (n : Nat) : List Nat :=
  [n % 256, n / 256 % 256, n / 65536 % 256, n / 16777216 % 256]

/-- The 44 header bytes of a file with outer tag `riff` (PCM, 44100 Hz) and the given
channel count, frame size, bits per sample and declared payload length. -/
def sample_header (riff : List Nat) (tag num_channels frame_size bits data_length : Nat) :
    List Nat :=
  riff ++ enc32 (36 + data_length) ++ WAVE ++ FMT_ ++ enc32 16 ++ enc16 tag ++
    enc16 num_channels ++ enc32 44100 ++ enc32 (44100 * frame_size) ++ enc16 frame_size ++
    enc16 bits ++ DATA ++ enc32 data_length

/-- An encoder that accepts every configuration and never emits a byte. -/
def silent_lame : Lame Unit :=
  { lame_init := ()
    lame_init_params := fun _ _ => (0, ())
    lame_encode_buffer := fun _ _ _ _ => (0, [], ())
    lame_encode_buffer_interleaved := fun _ _ _ _ => (0, [], ())
    lame_encode_flush := fun _ _ => (0, [], ()) }

/-- A file whose outer tag is `RIFX` instead of `RIFF`; everything else is in order. -/
def bad_tag_file : List Nat :=
  sample_header [82, 73, 70, 88] 1 1 2 16 4 ++ [1, 0, 2, 0]

/-- A valid mono file with two samples. -/
def mono_file : List Nat :=
  sample_header RIFF 1 1 2 16 4 ++ [1, 0, 2, 0]

/-- A valid mono header that declares four payload bytes, followed by two bytes only. -/
def short_file : List Nat :=
  sample_header RIFF 1 1 2 16 4 ++ [1, 0]

/-- A file system holding `bad.wav`, `a.wav` and `short.wav` and no destination file. -/
def sample_fs : FileSystem :=
  fun p => if p = "bad.wav" then some bad_tag_file
    else if p = "a.wav" then some mono_file
    else if p = "short.wav" then some short_file else none

/-- A valid stereo file: frame size 4, 9216 payload bytes, that is 2304 sample groups. -/
def stereo_file : List Nat :=
  sample_header RIFF 1 2 4 16 9216 ++ List.replicate 9216 0

/-- A file system holding `s.wav` only. -/
def stereo_fs : FileSystem :=
  fun p => if p = "s.wav" then some stereo_file else none

/-- A file that passes validation and declares frame size 0. -/
def zero_frame_file : List Nat :=
  sample_header RIFF 1 1 0 16 4 ++ [1, 0, 2, 0]

/-- A file that passes validation and declares two channels with frame size 2. -/
def narrow_frame_file : List Nat :=
  sample_header RIFF 1 2 2 16 4 ++ [1, 0, 2, 0]

/-- The block of an encode call, `read * num_channels` 16-bit elements from element
`current` on, lies within the `data_length` bytes of the sample buffer. -/
def block_in_bounds (num_channels data_length : Nat) (c : EncodeCall) : Prop :=
  0 ≤ c.current ∧ 2 * (c.current + c.read * (num_channels : Int)) ≤ (data_length : Int)

instance (num_channels data_length : Nat) (c : EncodeCall) :
    Decidable (block_in_bounds num_channels data_length c) :=
  inferInstanceAs (Decidable (_ ∧ _))

/-- A `stat` under which every path is a socket with mode bits 0755. -/
def socket_stat : String → Option Nat :=
  fun _ => some 0o140755

/-- The invariant of the pool: the counter equals the number of live runner threads and
does not exceed the capacity. -/
def PoolInv (m : Nat) (s : PoolState) : Prop :=
  s.pool.max_threads = m ∧ s.pool.num_busy = s.live.length ∧ s.pool.num_busy ≤ m

/-- A job function for the examples: every path but `a.wav` fails. -/
def demo_func (path : String) : Option Error :=
  if path = "a.wav" then none else some (error_new path "Invalid data format")

/-- A schedule on a pool of two slots: two submissions, one completion, a third submission. -/
def demo_events : List (Event String) :=
  [.submit "a.wav", .submit "b.wav", .finish 0, .submit "c.wav"]

/-- The state the schedule `demo_events` leads to. -/
def demo_state : PoolState :=
  { pool := { threads := [⟨2, some (error_new "c.wav" "Invalid data format")⟩,
                          ⟨1, some (error_new "b.wav" "Invalid data format")⟩,
                          ⟨0, none⟩]
              max_threads := 2
              num_busy := 2 }
    live := [2, 1] }

end MainC

namespace MainCC

/-! ## The container parser of `src/main.cc` -/

/-- An input file stream (`std::ifstream`): the bytes of the file, the get position and
the two state flags the program can reach. -/
structure IfStream where
  data : List Nat
  pos : Nat
  eofbit : Bool
  failbit : Bool
deriving DecidableEq, Repr

/-- Member `read (buf, n)`, with the previous content `buf` of the destination object.
On a stream that is not good it sets `failbit` and stores nothing.  Otherwise it stores
the available bytes, at most `n`, over the front of the object; when fewer than `n` were
available it sets `eofbit` and `failbit`. -/
def IfStream.read (input : IfStream) (buf : List Nat) (n : Nat) : IfStream × List Nat :=
  if input.eofbit ∨ input.failbit then
    ({ data := input.data, pos := input.pos, eofbit := input.eofbit, failbit := true }, buf)
  else
    let got := (input.data.drop input.pos).take n
    if got.length = n then
      ({ data := input.data, pos := input.pos + n, eofbit := false, failbit := false },
        got ++ buf.drop got.length)
    else
      ({ data := input.data, pos := input.pos + got.length, eofbit := true, failbit := true },
        got ++ buf.drop got.length)

/-- Member `seekg (off, std::ios::cur)` for an offset that is not negative: it clears
`eofbit`, and moves the get position unless `failbit` is set.  A file stream may be
positioned past the end of the file. -/
def IfStream.seekg_cur (input : IfStream) (off : Nat) : IfStream :=
  if input.failbit then
    { data := input.data, pos := input.pos, eofbit := false, failbit := true }
  else
    { data := input.data, pos := input.pos + off, eofbit := false, failbit := false }

/-- The record `Chunk` as its 8 bytes of memory: the field `id`. -/
def chunk_id (chunk : List Nat) : List Nat :=
  MainC.bytes4 chunk 0

/-- The record `Chunk` as its 8 bytes of memory: the field `size`. -/
def chunk_size (chunk : List Nat) : Nat :=
  MainC.le32 chunk 4

/-- The record `WaveHeader` of `src/main.cc`: 36 bytes without padding. -/
structure WaveHeader where
  riff_chunk_id : List Nat
  riff_chunk_size : Nat
  riff_type : List Nat
  fmt_signature : List Nat
  fmt_length : Nat
  fmt_tag : Nat
  fmt_num_channels : Nat
  fmt_sample_rate : Nat
  fmt_frame_rate : Nat
  fmt_frame_size : Nat
  fmt_bits_per_sample : Nat
deriving DecidableEq, Repr

/-- The value of a `WaveHeader` object whose 36 bytes of memory are `m`. -/
def WaveHeader.ofBytes (m : List Nat) : WaveHeader :=
  { riff_chunk_id := MainC.bytes4 m 0
    riff_chunk_size := MainC.le32 m 4
    riff_type := MainC.bytes4 m 8
    fmt_signature := MainC.bytes4 m 12
    fmt_length := MainC.le32 m 16
    fmt_tag := MainC.le16 m 20
    fmt_num_channels := MainC.le16 m 22
    fmt_sample_rate := MainC.le32 m 24
    fmt_frame_rate := MainC.le32 m 28
    fmt_frame_size := MainC.le16 m 32
    fmt_bits_per_sample := MainC.le16 m 34 }

/-- The state at the head of the loop `while (strncmp (chunk.id, "data", 4))`: the stream,
the memory of `chunk`, and the offsets passed to `seekg` so far. -/
structure Scan where
  input : IfStream
  chunk : List Nat
  skipped : List Nat
deriving DecidableEq, Repr

/-- The loop that skips non-data chunks, by fuel; `none` when the fuel is used up before
the loop condition becomes false. -/
def skip_loop : Nat → Scan → Option Scan
  | 0, _ => none
  | fuel + 1, s =>
    if MainC.strncmp (chunk_id s.chunk) MainC.DATA 4 ≠ 0 then
      let input1 := s.input.seekg_cur (chunk_size s.chunk)
      let r := input1.read s.chunk 8
      skip_loop fuel { input := r.1, chunk := r.2, skipped := s.skipped ++ [chunk_size s.chunk] }
    else some s

/-- How the parsing part of `encode_mp3` ends: with the message `has wrong data format`
and a return, or with the state in which the loop was left. -/
inductive Parsed where
  | wrong_format
  | scanned (header : WaveHeader) (s : Scan)
deriving DecidableEq, Repr

/-- The parsing part of function `encode_mp3` of `src/main.cc`, from its first statement
to the end of the chunk loop, on a file with the given bytes.  `stack` is the
indeterminate initial content of the 36 bytes of the local `header`; `fuel` bounds the
iterations of the loop. -/
def encode_mp3_parse (fuel : Nat) (stack : List Nat) (file : List Nat) : Option Parsed :=
  let chunk : List Nat := [0, 0, 0, 0, 0, 0, 0, 0]
  let input : IfStream := { data := file, pos := 0, eofbit := false, failbit := false }
  let h := input.read stack 36
  let header := WaveHeader.ofBytes h.2
  if MainC.strncmp header.riff_chunk_id MainC.RIFF 4 ≠ 0 ∨
      MainC.strncmp header.riff_type MainC.WAVE 4 ≠ 0 ∨
      MainC.strncmp header.fmt_signature MainC.FMT_ 4 ≠ 0 then
    some .wrong_format
  else
    let c := h.1.read chunk 8
    match skip_loop fuel { input := c.1, chunk := c.2, skipped := [] } with
    | none => none
    | some s => some (.scanned header s)

/-! ## Byte streams in the chunk layout -/

/-- A chunk of the container format: a 4-byte tag and a body. -/
structure RiffChunk where
  tag : List Nat
  body : List Nat
deriving DecidableEq, Repr

/-- The bytes of a chunk: tag, little-endian length of the body, body. -/
def RiffChunk.bytes (c : RiffChunk) : List Nat :=
  c.tag ++ MainC.enc32 c.body.length ++ c.body

/-- The bytes of a sequence of chunks. -/
def chunks_bytes : List RiffChunk → List Nat
  | [] => []
  | c :: cs => c.bytes ++ chunks_bytes cs

/-- The total size of a sequence of chunks: 8 bytes of chunk header and the body, each. -/
def chunks_size : List RiffChunk → Nat
  | [] => 0
  | c :: cs => 8 + c.body.length + chunks_size cs

/-- A tag of a chunk that is not the payload chunk: four bytes, not `data`. -/
def other_tag (tag : List Nat) : Prop :=
  tag.length = 4 ∧ (∀ b ∈ tag, b < 256) ∧ tag ≠ MainC.DATA

instance (tag : List Nat) : Decidable (other_tag tag) :=
  inferInstanceAs (Decidable (_ ∧ _ ∧ _))

/-- The leading 36 bytes of a stream carry the markers `RIFF`, `WAVE` and `fmt `. -/
def leading_markers (hdr : List Nat) : Prop :=
  (WaveHeader.ofBytes hdr).riff_chunk_id = MainC.RIFF ∧
    (WaveHeader.ofBytes hdr).riff_type = MainC.WAVE ∧
    (WaveHeader.ofBytes hdr).fmt_signature = MainC.FMT_

instance (hdr : List Nat) : Decidable (leading_markers hdr) :=
  inferInstanceAs (Decidable (_ ∧ _ ∧ _))

/-- The 36 leading bytes of a PCM stereo stream. -/
def sample_header : List Nat :=
  MainC.RIFF ++ MainC.enc32 64 ++ MainC.WAVE ++ MainC.FMT_ ++ MainC.enc32 16 ++ MainC.enc16 1 ++
    MainC.enc16 2 ++ MainC.enc32 44100 ++ MainC.enc32 176400 ++ MainC.enc16 4 ++ MainC.enc16 16

/-- A `LIST` chunk with a body of four bytes. -/
def list_chunk : RiffChunk :=
  { tag := [76, 73, 83, 84], body := [1, 2, 3, 4] }

/-- A stream with a `LIST` chunk, then a `data` chunk of four payload bytes. -/
def sample_stream : List Nat :=
  sample_header ++ (chunks_bytes [list_chunk] ++ (MainC.DATA ++ MainC.enc32 4 ++ [5, 6, 7, 8]))

/-- A stream that ends after its `LIST` chunk: it has no `data` chunk. -/
def no_data_stream : List Nat :=
  sample_header ++ chunks_bytes [list_chunk]

end MainCC

/-! # Theorems -/

/-! ## Properties of the worker pool -/

namespace MainC

theorem list_prepend_eq {α : Type} (list : List α) (data : α) :
    list_prepend list data = data :: list := by
  cases list <;> rfl

theorem u32_inc (n : Nat) (hlt : n + 1 < 2 ^ 32) : (n + 1) % 2 ^ 32 = n + 1 := by
  omega

theorem u32_dec (n : Nat) (hn : 0 < n) : unsigned_dec n = n - 1 := by
  unfold unsigned_dec
  rw [if_neg (by omega)]

theorem pool_step_inv {α : Type} (func : α → Option Error) (m : Nat) (hm : m < 2 ^ 32)
    (s s1 : PoolState) (e : Event α) (hs : PoolInv m s) (h : pool_step func s e = some s1) :
    PoolInv m s1 := by
  obtain ⟨h1, h2, h3⟩ := hs
  cases e with
  | submit data =>
    simp only [pool_step] at h
    unfold thread_pool_submit at h
    split at h
    · exact Option.noConfusion h
    · rename_i hne
      injection h with h
      subst h
      have hinc := u32_inc s.pool.num_busy (by omega)
      refine ⟨h1, ?_, ?_⟩
      · simp only [List.length_cons]
        rw [hinc, h2]
      · simp only []
        rw [hinc]
        omega
  | finish tid =>
    simp only [pool_step] at h
    unfold thread_pool_runner at h
    split at h
    · rename_i hmem
      injection h with h
      subst h
      have hpos : 0 < s.live.length := List.length_pos_of_mem hmem
      have hlen : (s.live.erase tid).length = s.live.length - 1 :=
        List.length_erase_of_mem hmem
      have hdec := u32_dec s.pool.num_busy (by omega)
      refine ⟨h1, ?_, ?_⟩
      · simp only []
        rw [hdec, hlen, h2]
      · simp only []
        rw [hdec]
        omega
    · exact Option.noConfusion h

theorem pool_run_inv {α : Type} (func : α → Option Error) (m : Nat) (hm : m < 2 ^ 32)
    (es : List (Event α)) :
    ∀ s s1 : PoolState, PoolInv m s → pool_run func s es = some s1 → PoolInv m s1 := by
  induction es with
  | nil =>
    intro s s1 hs h
    simp only [pool_run] at h
    injection h with h
    subst h
    exact hs
  | cons e es ih =>
    intro s s1 hs h
    simp only [pool_run] at h
    split at h
    · exact Option.noConfusion h
    · rename_i s2 hstep
      exact ih s2 s1 (pool_step_inv func m hm s s2 e hs hstep) h

theorem pool_start_inv (m : Nat) (hm : m < 2 ^ 32) : PoolInv m (pool_start m) := by
  refine ⟨?_, rfl, Nat.zero_le _⟩
  show m % 2 ^ 32 = m
  exact Nat.mod_eq_of_lt hm

/-- Claim C1.  For every capacity `max_threads >= 1` (an `unsigned`) and every sequence of
submit and completion steps from the fresh pool, the state reached keeps the capacity and
satisfies `num_busy <= max_threads`: the occupied-slot count never exceeds the capacity. -/
theorem pool_num_busy_le_max_threads {α : Type} (func : α → Option Error)
    (max_threads : Nat) (_hcap : 1 ≤ max_threads) (hu : max_threads < 2 ^ 32)
    (es : List (Event α)) (s : PoolState)
    (hrun : pool_run func (pool_start max_threads) es = some s) :
    s.pool.max_threads = max_threads ∧ s.pool.num_busy ≤ max_threads := by
  have h := pool_run_inv func max_threads hu es _ s (pool_start_inv max_threads hu) hrun
  exact ⟨h.1, h.2.2⟩

theorem demo_run : pool_run demo_func (pool_start 2) demo_events = some demo_state := by
  decide

/-- Witness of C1: a pool of two slots, driven through `demo_events`. -/
theorem pool_num_busy_le_max_threads_witness :
    pool_run demo_func (pool_start 2) demo_events = some demo_state ∧
      demo_state.pool.max_threads = 2 ∧ demo_state.pool.num_busy ≤ 2 :=
  ⟨by decide,
    pool_num_busy_le_max_threads demo_func 2 (by decide) (by decide) demo_events demo_state
      (by decide)⟩

/-! ### Joining: one handle per job, one line per failed job -/

theorem wait_loop_joined (ts : List Thread) :
    (thread_pool_wait_loop ts).joined = ts.map Thread.tid := by
  induction ts with
  | nil => rfl
  | cons t ts ih =>
    simp only [thread_pool_wait_loop, List.map_cons]
    split <;> simp only [ih]

theorem wait_loop_stderr (ts : List Thread) :
    (thread_pool_wait_loop ts).stderr =
      (ts.map Thread.result).filterMap (fun r => r.map error_line) := by
  induction ts with
  | nil => rfl
  | cons t ts ih =>
    simp only [thread_pool_wait_loop, List.map_cons]
    split
    · rename_i hr
      simp only [ih, List.filterMap_cons, hr, Option.map_none']
    · rename_i e hr
      simp only [ih, List.filterMap_cons, hr, Option.map_some']

theorem filterMap_map_length {β : Type} (g : Error → β) (rs : List (Option Error)) :
    (rs.filterMap (fun r => r.map g)).length = rs.countP (fun r => r.isSome) := by
  induction rs with
  | nil => rfl
  | cons r rs ih =>
    cases r with
    | none => simpa using ih
    | some e => simpa using ih

theorem pool_run_threads {α : Type} (func : α → Option Error) (es : List (Event α)) :
    ∀ s0 s : PoolState, pool_run func s0 es = some s →
      s.pool.threads.map Thread.result =
          ((submitted es).map func).reverse ++ s0.pool.threads.map Thread.result ∧
        s.pool.threads.map Thread.tid =
          (List.range' s0.pool.threads.length (submitted es).length).reverse ++
            s0.pool.threads.map Thread.tid := by
  induction es with
  | nil =>
    intro s0 s h
    simp only [pool_run] at h
    injection h with h
    subst h
    simp [submitted]
  | cons e es ih =>
    intro s0 s h
    simp only [pool_run] at h
    split at h
    · exact Option.noConfusion h
    · rename_i s1 hstep
      obtain ⟨ih1, ih2⟩ := ih s1 s h
      cases e with
      | submit data =>
        simp only [pool_step] at hstep
        unfold thread_pool_submit at hstep
        split at hstep
        · exact Option.noConfusion hstep
        · injection hstep with hstep
          subst hstep
          simp only [list_prepend_eq, List.map_cons, List.length_cons] at ih1 ih2
          constructor
          · rw [ih1]
            simp [submitted]
          · rw [ih2]
            simp [submitted, List.range'_succ]
      | finish tid =>
        simp only [pool_step] at hstep
        unfold thread_pool_runner at hstep
        split at hstep
        · injection hstep with hstep
          subst hstep
          exact ⟨ih1, ih2⟩
        · exact Option.noConfusion hstep

theorem pool_wait_count {α : Type} (func : α → Option Error) (num_cores : Nat)
    (es : List (Event α)) (s : PoolState)
    (hrun : pool_run func (pool_start num_cores) es = some s) :
    (thread_pool_wait s.pool).stderr.length =
      ((submitted es).filter (fun d => (func d).isSome)).length := by
  obtain ⟨h1, _⟩ := pool_run_threads func es _ s hrun
  simp only [pool_start, thread_pool_new, List.map_nil, List.append_nil] at h1
  unfold thread_pool_wait
  rw [wait_loop_stderr, h1, filterMap_map_length, List.countP_reverse, List.countP_map,
    List.countP_eq_length_filter]
  rfl

/-- Claim C8.  Let a schedule of submit and completion steps run on a fresh pool and let
`jobs` be the job arguments it submitted.  Then the handle list holds exactly one handle
per submitted job (handles `0 .. n-1`, newest first, each carrying its own job's outcome),
`thread_pool_wait` joins exactly the handles of that list, each once, the lines it prints
are, for the failed jobs from the newest to the oldest, the text `Error: ` followed by the
file name of the job's error, `: `, its message and a line feed, their number is the
number of failed jobs, and that number is the same for every schedule that submits a
permutation of the same jobs. -/
theorem thread_pool_wait_reports_failed_jobs {α : Type} (func : α → Option Error)
    (num_cores : Nat) (es : List (Event α)) (s : PoolState)
    (hrun : pool_run func (pool_start num_cores) es = some s) :
    s.pool.threads.length = (submitted es).length ∧
    s.pool.threads.map Thread.tid = (List.range (submitted es).length).reverse ∧
    s.pool.threads.map Thread.result = ((submitted es).map func).reverse ∧
    (thread_pool_wait s.pool).joined = s.pool.threads.map Thread.tid ∧
    (thread_pool_wait s.pool).joined.Nodup ∧
    (thread_pool_wait s.pool).stderr =
      (submitted es).reverse.filterMap (fun d => (func d).map (fun error =>
        "Error: " ++ error.filename ++ ": " ++ error.message ++ "\n")) ∧
    (thread_pool_wait s.pool).stderr.length =
      ((submitted es).filter (fun d => (func d).isSome)).length ∧
    ∀ (cores2 : Nat) (es2 : List (Event α)) (s2 : PoolState),
      pool_run func (pool_start cores2) es2 = some s2 →
      (submitted es2).Perm (submitted es) →
      (thread_pool_wait s2.pool).stderr.length = (thread_pool_wait s.pool).stderr.length := by
  obtain ⟨h1, h2⟩ := pool_run_threads func es _ s hrun
  simp only [pool_start, thread_pool_new, List.map_nil, List.append_nil, List.length_nil] at h1 h2
  have htid : s.pool.threads.map Thread.tid = (List.range (submitted es).length).reverse := by
    rw [h2, List.range_eq_range']
  have hjoin : (thread_pool_wait s.pool).joined = s.pool.threads.map Thread.tid :=
    wait_loop_joined s.pool.threads
  refine ⟨?_, htid, h1, hjoin, ?_, ?_, pool_wait_count func num_cores es s hrun, ?_⟩
  · have := congrArg List.length htid
    simpa using this
  · rw [hjoin, htid]
    exact List.nodup_reverse.mpr (List.nodup_range _)
  · unfold thread_pool_wait
    rw [wait_loop_stderr, h1, ← List.map_reverse, List.filterMap_map]
    rfl
  · intro cores2 es2 s2 hrun2 hperm
    rw [pool_wait_count func cores2 es2 s2 hrun2, pool_wait_count func num_cores es s hrun]
    exact (hperm.filter _).length_eq

/-- Witness of C8: the schedule `demo_events`, whose jobs `b.wav` and `c.wav` fail; the
two lines printed are spelled out. -/
theorem thread_pool_wait_reports_failed_jobs_witness :
    pool_run demo_func (pool_start 2) demo_events = some demo_state ∧
      (thread_pool_wait demo_state.pool).stderr =
        ["Error: c.wav: Invalid data format\n", "Error: b.wav: Invalid data format\n"] ∧
      (thread_pool_wait demo_state.pool).stderr.length =
        ((submitted demo_events).filter (fun d => (demo_func d).isSome)).length :=
  ⟨by decide,
    (thread_pool_wait_reports_failed_jobs demo_func 2 demo_events demo_state
      (by decide)).2.2.2.2.2.1.trans (by decide),
    (thread_pool_wait_reports_failed_jobs demo_func 2 demo_events demo_state
      (by decide)).2.2.2.2.2.2.1⟩

theorem demo_wait_output :
    (thread_pool_wait demo_state.pool).stderr =
      ["Error: c.wav: Invalid data format\n", "Error: b.wav: Invalid data format\n"] := by
  decide

end MainC

/-! ## Reading the header in `encode_mp3` -/

namespace MainC

theorem strncmp_step (s1 s2 : List Nat) (n : Nat) :
    strncmp s1 s2 (n + 1) =
      if s1.headD 0 ≠ s2.headD 0 then (s1.headD 0 : Int) - (s2.headD 0 : Int)
      else if s1.headD 0 = 0 then 0 else strncmp s1.tail s2.tail n := by
  rw [strncmp]

theorem strncmp_cons_ne (c1 c2 : Nat) (s1 s2 : List Nat) (n : Nat) (h : c1 ≠ c2) :
    strncmp (c1 :: s1) (c2 :: s2) (n + 1) ≠ 0 := by
  rw [strncmp_step]
  simp only [List.headD_cons, ne_eq, h, not_false_eq_true, if_true]
  omega

theorem strncmp_cons_eq (c : Nat) (s1 s2 : List Nat) (n : Nat) (h : c ≠ 0) :
    strncmp (c :: s1) (c :: s2) (n + 1) = strncmp s1 s2 n := by
  rw [strncmp_step]
  simp [h]

theorem strncmp_nil_cons (c : Nat) (s2 : List Nat) (n : Nat) (h : c ≠ 0) :
    strncmp [] (c :: s2) (n + 1) ≠ 0 := by
  rw [strncmp_step]
  simp only [List.headD_nil, List.headD_cons, ne_eq]
  rw [if_pos (fun e => h e.symm)]
  omega

/-- On a field of at most four bytes, `strncmp (field, literal, 4)` is zero exactly when
the field equals the four (non-NUL) bytes of the literal. -/
theorem strncmp_four (s : List Nat) (a b c d : Nat) (ha : a ≠ 0) (hb : b ≠ 0) (hc : c ≠ 0)
    (hd : d ≠ 0) (hs : s.length ≤ 4) : strncmp s [a, b, c, d] 4 = 0 ↔ s = [a, b, c, d] := by
  rcases s with _ | ⟨w, s⟩
  · simpa using strncmp_nil_cons a _ 3 ha
  by_cases h1 : w = a
  swap
  · simpa [h1] using strncmp_cons_ne w a s _ 3 h1
  subst h1
  rw [strncmp_cons_eq w _ _ _ ha]
  rcases s with _ | ⟨x, s⟩
  · simpa using strncmp_nil_cons b _ 2 hb
  by_cases h2 : x = b
  swap
  · simpa [h2] using strncmp_cons_ne x b s _ 2 h2
  subst h2
  rw [strncmp_cons_eq x _ _ _ hb]
  rcases s with _ | ⟨y, s⟩
  · simpa using strncmp_nil_cons c _ 1 hc
  by_cases h3 : y = c
  swap
  · simpa [h3] using strncmp_cons_ne y c s _ 1 h3
  subst h3
  rw [strncmp_cons_eq y _ _ _ hc]
  rcases s with _ | ⟨z, s⟩
  · simpa using strncmp_nil_cons d _ 0 hd
  by_cases h4 : z = d
  swap
  · simpa [h4] using strncmp_cons_ne z d s _ 0 h4
  subst h4
  rw [strncmp_cons_eq z _ _ _ hd]
  rcases s with _ | ⟨v, s⟩
  · simp [strncmp]
  · simp at hs

theorem bytes4_length (m : List Nat) (off : Nat) : (bytes4 m off).length ≤ 4 := by
  simp [bytes4]

theorem bytes4_append (m x : List Nat) (off : Nat) (h : off + 4 ≤ m.length) :
    bytes4 (m ++ x) off = bytes4 m off := by
  unfold bytes4
  rw [List.drop_append_of_le_length (by omega), List.take_append_of_le_length]
  rw [List.length_drop]
  omega

theorem getD_append_lt (m x : List Nat) (i : Nat) (h : i < m.length) :
    (m ++ x).getD i 0 = m.getD i 0 := by
  rw [List.getD_append _ _ _ _ h]

theorem le16_append (m x : List Nat) (off : Nat) (h : off + 2 ≤ m.length) :
    le16 (m ++ x) off = le16 m off := by
  unfold le16
  rw [getD_append_lt m x off (by omega), getD_append_lt m x (off + 1) (by omega)]

theorem le32_append (m x : List Nat) (off : Nat) (h : off + 4 ≤ m.length) :
    le32 (m ++ x) off = le32 m off := by
  unfold le32
  rw [getD_append_lt m x off (by omega), getD_append_lt m x (off + 1) (by omega),
    getD_append_lt m x (off + 2) (by omega), getD_append_lt m x (off + 3) (by omega)]

/-- Only the first 44 bytes of a memory image determine the header. -/
theorem ofBytes_append (hdr x : List Nat) (h : hdr.length = 44) :
    WaveHeader.ofBytes (hdr ++ x) = WaveHeader.ofBytes hdr := by
  unfold WaveHeader.ofBytes
  rw [bytes4_append hdr x 0 (by omega), bytes4_append hdr x 8 (by omega),
    bytes4_append hdr x 12 (by omega), bytes4_append hdr x 36 (by omega),
    le32_append hdr x 4 (by omega), le32_append hdr x 16 (by omega),
    le32_append hdr x 24 (by omega), le32_append hdr x 28 (by omega),
    le32_append hdr x 40 (by omega), le16_append hdr x 20 (by omega),
    le16_append hdr x 22 (by omega), le16_append hdr x 32 (by omega),
    le16_append hdr x 34 (by omega)]

/-- The first `fread` of `encode_mp3` on a file of at least 44 bytes. -/
theorem fread_header (hdr rest : List Nat) (h : hdr.length = 44) :
    fread 44 1 { data := hdr ++ rest, pos := 0 } =
      (hdr, 1, { data := hdr ++ rest, pos := 44 }) := by
  unfold fread
  simp only [List.drop_zero, Nat.mul_one, Nat.zero_add]
  rw [List.take_left' h]
  simp [h]

/-- The second `fread` of `encode_mp3`: as many of the `n` bytes as the file holds. -/
theorem fread_payload (hdr rest : List Nat) (n : Nat) (h : hdr.length = 44) :
    fread 1 n { data := hdr ++ rest, pos := 44 } =
      (rest.take n, min n rest.length,
        { data := hdr ++ rest, pos := 44 + min n rest.length }) := by
  unfold fread
  simp only [Nat.one_mul, Nat.div_one]
  rw [List.drop_left' h]
  simp [Nat.min_comm]

theorem store_other (fs : FileSystem) (p q : String) (c : List Nat) (h : p ≠ q) :
    fs.store p c q = fs q := by
  unfold FileSystem.store
  rw [if_neg (fun e => h e.symm)]

theorem store_same (fs : FileSystem) (p : String) (c : List Nat) :
    fs.store p c p = some c := by
  unfold FileSystem.store
  rw [if_pos rfl]

theorem markers_invalid_iff (header : WaveHeader)
    (h1 : header.riff_chunk_id.length ≤ 4) (h2 : header.riff_type.length ≤ 4)
    (h3 : header.fmt_signature.length ≤ 4) (h4 : header.data_signature.length ≤ 4) :
    (strncmp header.riff_chunk_id RIFF 4 ≠ 0 ∨ strncmp header.riff_type WAVE 4 ≠ 0 ∨
        strncmp header.fmt_signature FMT_ 4 ≠ 0 ∨ strncmp header.data_signature DATA 4 ≠ 0) ↔
      ¬ markers_match header := by
  unfold markers_match
  have e1 := strncmp_four header.riff_chunk_id 82 73 70 70 (by decide) (by decide) (by decide)
    (by decide) h1
  have e2 := strncmp_four header.riff_type 87 65 86 69 (by decide) (by decide) (by decide)
    (by decide) h2
  have e3 := strncmp_four header.fmt_signature 102 109 116 32 (by decide) (by decide)
    (by decide) (by decide) h3
  have e4 := strncmp_four header.data_signature 100 97 116 97 (by decide) (by decide)
    (by decide) (by decide) h4
  unfold RIFF WAVE FMT_ DATA
  rw [← e1, ← e2, ← e3, ← e4]
  tauto

theorem ofBytes_markers_invalid_iff (m : List Nat) :
    (strncmp (WaveHeader.ofBytes m).riff_chunk_id RIFF 4 ≠ 0 ∨
        strncmp (WaveHeader.ofBytes m).riff_type WAVE 4 ≠ 0 ∨
        strncmp (WaveHeader.ofBytes m).fmt_signature FMT_ 4 ≠ 0 ∨
        strncmp (WaveHeader.ofBytes m).data_signature DATA 4 ≠ 0) ↔
      ¬ markers_match (WaveHeader.ofBytes m) :=
  markers_invalid_iff _ (bytes4_length m 0) (bytes4_length m 8) (bytes4_length m 12)
    (bytes4_length m 36)

end MainC

/-! ## Header validation (C2) and the payload read (C3) -/

namespace MainC

/-- Once the header has passed validation, `encode_mp3` ends in one of five ways, none of
which is a validation error. -/
theorem encode_mp3_valid_outcome {σ : Type} (L : Lame σ) (stack : List Nat) (fs : FileSystem)
    (wav_path : String) (hdr rest : List Nat) (hlen : hdr.length = 44)
    (hfile : fs wav_path = some (hdr ++ rest)) (hpath : mp3_path_of wav_path ≠ wav_path)
    (hvalid : header_valid (WaveHeader.ofBytes hdr)) :
    (encode_mp3 L stack fs wav_path).outcome = truncated_file wav_path ∨
    (encode_mp3 L stack fs wav_path).outcome = encoder_init_failed wav_path ∨
    (encode_mp3 L stack fs wav_path).outcome = .division_by_zero ∨
    (encode_mp3 L stack fs wav_path).outcome = .signed_overflow ∨
    (encode_mp3 L stack fs wav_path).outcome = .returned none := by
  obtain ⟨hm, htag, hbits⟩ := hvalid
  unfold encode_mp3
  simp only [hfile, store_other _ _ _ _ hpath, Option.getD_some, fread_header hdr rest hlen,
    ofBytes_append hdr _ hlen, fread_payload hdr rest _ hlen, ofBytes_markers_invalid_iff]
  rw [if_neg (not_not.mpr hm), if_neg (not_not.mpr htag), if_neg (not_not.mpr hbits)]
  split_ifs
  · exact Or.inl rfl
  · exact Or.inr (Or.inl rfl)
  · exact Or.inr (Or.inr (Or.inl rfl))
  · split
    · exact Or.inr (Or.inr (Or.inr (Or.inl rfl)))
    · exact Or.inr (Or.inr (Or.inr (Or.inl rfl)))
    · exact Or.inr (Or.inr (Or.inr (Or.inr rfl)))

/-- Claim C2.  For a file that starts with the 44 header bytes `hdr`: if one of the four
markers does not match, `encode_mp3` returns `Invalid data format`, whatever the numeric
fields hold; otherwise, if the format tag is not 1, it returns the unsupported-codec
error; otherwise, if bits-per-sample is not 16, it returns the unsupported-bit-depth
error; and none of these three validation errors is the outcome exactly when all four
markers match, the tag is 1 and bits-per-sample is 16. -/
theorem encode_mp3_header_validation {σ : Type} (L : Lame σ) (stack : List Nat)
    (fs : FileSystem) (wav_path : String) (hdr rest : List Nat) (hlen : hdr.length = 44)
    (hfile : fs wav_path = some (hdr ++ rest)) (hpath : mp3_path_of wav_path ≠ wav_path) :
    (¬ markers_match (WaveHeader.ofBytes hdr) →
      (encode_mp3 L stack fs wav_path).outcome = invalid_format wav_path) ∧
    (markers_match (WaveHeader.ofBytes hdr) → (WaveHeader.ofBytes hdr).fmt_tag ≠ 1 →
      (encode_mp3 L stack fs wav_path).outcome = unsupported_codec wav_path) ∧
    (markers_match (WaveHeader.ofBytes hdr) → (WaveHeader.ofBytes hdr).fmt_tag = 1 →
      (WaveHeader.ofBytes hdr).fmt_bits_per_sample ≠ 16 →
      (encode_mp3 L stack fs wav_path).outcome = unsupported_bit_depth wav_path) ∧
    (header_valid (WaveHeader.ofBytes hdr) ↔
      ((encode_mp3 L stack fs wav_path).outcome ≠ invalid_format wav_path ∧
       (encode_mp3 L stack fs wav_path).outcome ≠ unsupported_codec wav_path ∧
       (encode_mp3 L stack fs wav_path).outcome ≠ unsupported_bit_depth wav_path)) := by
  have e1 : ¬ markers_match (WaveHeader.ofBytes hdr) →
      (encode_mp3 L stack fs wav_path).outcome = invalid_format wav_path := by
    intro hm
    unfold encode_mp3
    simp only [hfile, store_other _ _ _ _ hpath, Option.getD_some, fread_header hdr rest hlen,
      ofBytes_append hdr _ hlen, ofBytes_markers_invalid_iff]
    rw [if_pos hm]
    rfl
  have e2 : markers_match (WaveHeader.ofBytes hdr) → (WaveHeader.ofBytes hdr).fmt_tag ≠ 1 →
      (encode_mp3 L stack fs wav_path).outcome = unsupported_codec wav_path := by
    intro hm htag
    unfold encode_mp3
    simp only [hfile, store_other _ _ _ _ hpath, Option.getD_some, fread_header hdr rest hlen,
      ofBytes_append hdr _ hlen, ofBytes_markers_invalid_iff]
    rw [if_neg (not_not.mpr hm), if_pos htag]
    rfl
  have e3 : markers_match (WaveHeader.ofBytes hdr) → (WaveHeader.ofBytes hdr).fmt_tag = 1 →
      (WaveHeader.ofBytes hdr).fmt_bits_per_sample ≠ 16 →
      (encode_mp3 L stack fs wav_path).outcome = unsupported_bit_depth wav_path := by
    intro hm htag hbits
    unfold encode_mp3
    simp only [hfile, store_other _ _ _ _ hpath, Option.getD_some, fread_header hdr rest hlen,
      ofBytes_append hdr _ hlen, ofBytes_markers_invalid_iff]
    rw [if_neg (not_not.mpr hm), if_neg (not_not.mpr htag), if_pos hbits]
    rfl
  refine ⟨e1, e2, e3, ?_, ?_⟩
  · intro hvalid
    have h5 := encode_mp3_valid_outcome L stack fs wav_path hdr rest hlen hfile hpath hvalid
    rcases h5 with h | h | h | h | h <;> rw [h] <;>
      simp [invalid_format, unsupported_codec, unsupported_bit_depth, truncated_file,
        encoder_init_failed, error_new]
  · rintro ⟨n1, n2, n3⟩
    by_cases hm : markers_match (WaveHeader.ofBytes hdr)
    · by_cases htag : (WaveHeader.ofBytes hdr).fmt_tag = 1
      · by_cases hbits : (WaveHeader.ofBytes hdr).fmt_bits_per_sample = 16
        · exact ⟨hm, htag, hbits⟩
        · exact absurd (e3 hm htag hbits) n3
      · exact absurd (e2 hm htag) n2
    · exact absurd (e1 hm) n1

/-- Witness of C2: the file `bad.wav` with outer tag `RIFX`. -/
theorem encode_mp3_header_validation_witness :
    (encode_mp3 silent_lame [] sample_fs "bad.wav").outcome = invalid_format "bad.wav" :=
  (encode_mp3_header_validation silent_lame [] sample_fs "bad.wav"
    (sample_header [82, 73, 70, 88] 1 1 2 16 4) [1, 0, 2, 0] (by decide) (by decide)
    (by decide)).1 (by decide)

/-- Claim C3.  For a file whose 44 header bytes pass validation: if the payload length
declared in the data chunk exceeds the number of bytes that follow the header,
`encode_mp3` returns `Not enough data to read` and no encode call is made; if the declared
number of bytes can be read, the outcome is not that error. -/
theorem encode_mp3_truncated_file {σ : Type} (L : Lame σ) (stack : List Nat)
    (fs : FileSystem) (wav_path : String) (hdr rest : List Nat) (hlen : hdr.length = 44)
    (hfile : fs wav_path = some (hdr ++ rest)) (hpath : mp3_path_of wav_path ≠ wav_path)
    (hvalid : header_valid (WaveHeader.ofBytes hdr)) :
    (rest.length < (WaveHeader.ofBytes hdr).data_length →
      (encode_mp3 L stack fs wav_path).outcome = truncated_file wav_path ∧
      (encode_mp3 L stack fs wav_path).calls = []) ∧
    ((WaveHeader.ofBytes hdr).data_length ≤ rest.length →
      (encode_mp3 L stack fs wav_path).outcome ≠ truncated_file wav_path) := by
  obtain ⟨hm, htag, hbits⟩ := hvalid
  constructor
  · intro hshort
    have hne : (WaveHeader.ofBytes hdr).data_length ≠
        min (WaveHeader.ofBytes hdr).data_length rest.length := by
      rw [Nat.min_eq_right (Nat.le_of_lt hshort)]
      omega
    unfold encode_mp3
    simp only [hfile, store_other _ _ _ _ hpath, Option.getD_some, fread_header hdr rest hlen,
      ofBytes_append hdr _ hlen, fread_payload hdr rest _ hlen, ofBytes_markers_invalid_iff]
    rw [if_neg (not_not.mpr hm), if_neg (not_not.mpr htag), if_neg (not_not.mpr hbits),
      if_pos hne]
    exact ⟨rfl, rfl⟩
  · intro hfull
    have heq : ¬ (WaveHeader.ofBytes hdr).data_length ≠
        min (WaveHeader.ofBytes hdr).data_length rest.length := by
      rw [Nat.min_eq_left hfull]
      exact fun h => h rfl
    unfold encode_mp3
    simp only [hfile, store_other _ _ _ _ hpath, Option.getD_some, fread_header hdr rest hlen,
      ofBytes_append hdr _ hlen, fread_payload hdr rest _ hlen, ofBytes_markers_invalid_iff]
    rw [if_neg (not_not.mpr hm), if_neg (not_not.mpr htag), if_neg (not_not.mpr hbits),
      if_neg heq]
    split_ifs
    · simp [truncated_file, error_new]
    · simp [truncated_file]
    · split <;> simp [truncated_file]

/-- Witness of C3: `short.wav` declares four payload bytes and holds two. -/
theorem encode_mp3_truncated_file_witness :
    (encode_mp3 silent_lame [] sample_fs "short.wav").outcome = truncated_file "short.wav" ∧
      (encode_mp3 silent_lame [] sample_fs "short.wav").calls = [] :=
  (encode_mp3_truncated_file silent_lame [] sample_fs "short.wav"
    (sample_header RIFF 1 1 2 16 4) [1, 0] (by decide) (by decide) (by decide)
    (by decide)).1 (by decide)

end MainC

/-! ## Where the code departs from the specification -/

namespace MainC

/-- Claim C6 fails on `src/main.c`: `fopen (mp3_path, "wb")` precedes the header check.
For `bad.wav`, whose outer tag is wrong, the task returns `Invalid data format`, and the
destination `bad.mp3`, absent before, exists (empty) afterwards; a destination that
existed before is truncated. -/
theorem encode_mp3_creates_destination_before_validation :
    sample_fs "bad.mp3" = none ∧
    (encode_mp3 silent_lame [] sample_fs "bad.wav").outcome = invalid_format "bad.wav" ∧
    (encode_mp3 silent_lame [] sample_fs "bad.wav").fs "bad.mp3" = some [] ∧
    (encode_mp3 silent_lame [] (sample_fs.store "bad.mp3" [7, 7, 7]) "bad.wav").fs "bad.mp3" =
      some [] := by
  decide

/-- Claim C7 fails on `src/main.c`: the test is `st_mode & S_IFREG`, not `S_ISREG`.  A
socket named `dir/x.wav` (mode `0140755`) is not a regular file, yet
`is_potential_wav_file` accepts it and `get_valid_file_names` returns it. -/
theorem is_potential_wav_file_accepts_socket :
    S_ISREG 0o140755 = false ∧
    is_potential_wav_file socket_stat "dir/x.wav" = 1 ∧
    get_valid_file_names socket_stat (fun _ => some ["x.wav"]) "dir" = ["dir/x.wav"] := by
  decide

/-- Claim C10 fails on `src/main.c`: validation does not look at `frame_size`.  A header
that passes validation with frame size 0 makes `data.length / fmt.frame_size` a division
by zero; one that passes with two channels and frame size 2 makes the loop hand over a
block of `2 * 2` elements although the buffer holds 4 bytes. -/
theorem encode_mp3_unchecked_frame_size :
    header_valid (WaveHeader.ofBytes zero_frame_file) ∧
    (encode_mp3 silent_lame [] (fun _ => some zero_frame_file) "z.wav").outcome =
      .division_by_zero ∧
    header_valid (WaveHeader.ofBytes narrow_frame_file) ∧
    (encode_mp3 silent_lame [] (fun _ => some narrow_frame_file) "n.wav").calls =
      [{ mono := false, current := 0, read := 2 }] ∧
    ¬ block_in_bounds 2 4 { mono := false, current := 0, read := 2 } := by
  decide

/-- The encode stage of `encode_mp3`, reached with a valid header, a complete payload, an
accepted encoder configuration and a non-zero frame size. -/
theorem encode_mp3_of_valid {σ : Type} (L : Lame σ) (stack : List Nat) (fs : FileSystem)
    (wav_path : String) (hdr rest : List Nat) (hlen : hdr.length = 44)
    (hfile : fs wav_path = some (hdr ++ rest)) (hpath : mp3_path_of wav_path ≠ wav_path)
    (hvalid : header_valid (WaveHeader.ofBytes hdr))
    (hfull : (WaveHeader.ofBytes hdr).data_length ≤ rest.length)
    (hinit : ¬ (L.lame_init_params L.lame_init
      { num_channels := (WaveHeader.ofBytes hdr).fmt_num_channels
        in_samplerate := (WaveHeader.ofBytes hdr).fmt_sample_rate
        out_samplerate := (WaveHeader.ofBytes hdr).fmt_sample_rate
        mono := (WaveHeader.ofBytes hdr).fmt_num_channels == 1
        quality := 3 }).1 < 0)
    (hframe : (WaveHeader.ofBytes hdr).fmt_frame_size ≠ 0)
    (b : Bool) (st : Encoding σ)
    (hloop : encode_loop L ((WaveHeader.ofBytes hdr).fmt_num_channels == 1)
      (rest.take (WaveHeader.ofBytes hdr).data_length)
      (((WaveHeader.ofBytes hdr).fmt_num_channels : Int) * FRAME_SIZE * 2)
      (int_of_unsigned
        ((WaveHeader.ofBytes hdr).data_length / (WaveHeader.ofBytes hdr).fmt_frame_size))
      ((int_of_unsigned
        ((WaveHeader.ofBytes hdr).data_length /
          (WaveHeader.ofBytes hdr).fmt_frame_size)).toNat + 1) 0
      { lame := (L.lame_init_params L.lame_init
          { num_channels := (WaveHeader.ofBytes hdr).fmt_num_channels
            in_samplerate := (WaveHeader.ofBytes hdr).fmt_sample_rate
            out_samplerate := (WaveHeader.ofBytes hdr).fmt_sample_rate
            mono := (WaveHeader.ofBytes hdr).fmt_num_channels == 1
            quality := 3 }).2
        mp3 := [], calls := [] } = some (b, st)) :
    (encode_mp3 L stack fs wav_path).calls = st.calls ∧
    (encode_mp3 L stack fs wav_path).outcome =
      (if b then .returned none else .signed_overflow) := by
  obtain ⟨hm, htag, hbits⟩ := hvalid
  have heq : ¬ (WaveHeader.ofBytes hdr).data_length ≠
      min (WaveHeader.ofBytes hdr).data_length rest.length := by
    rw [Nat.min_eq_left hfull]
    exact fun h => h rfl
  unfold encode_mp3
  simp only [hfile, store_other _ _ _ _ hpath, Option.getD_some, fread_header hdr rest hlen,
    ofBytes_append hdr _ hlen, fread_payload hdr rest _ hlen, ofBytes_markers_invalid_iff]
  rw [if_neg (not_not.mpr hm), if_neg (not_not.mpr htag), if_neg (not_not.mpr hbits),
    if_neg heq, if_neg hinit, if_neg hframe, hloop]
  cases b <;> exact ⟨rfl, rfl⟩

/-- The header fields of `stereo_file`. -/
theorem stereo_header :
    WaveHeader.ofBytes (sample_header RIFF 1 2 4 16 9216) =
      { riff_chunk_id := RIFF, riff_chunk_size := 9252, riff_type := WAVE
        fmt_signature := FMT_, fmt_length := 16, fmt_tag := 1, fmt_num_channels := 2
        fmt_sample_rate := 44100, fmt_frame_rate := 176400, fmt_frame_size := 4
        fmt_bits_per_sample := 16, data_signature := DATA, data_length := 9216 } := by
  decide

/-- Claim C9 fails on the stereo path of `src/main.c` (the loop of `src/main.cc` is the
same): `current` counts 16-bit elements and advances by 2304 per block, but it is compared
with the number of sample groups.  For `s.wav`, a valid stereo file of 2304 sample groups,
the task returns success after a single encode call of 1152 sample groups: the block
sizes sum to 1152, not to 2304. -/
theorem encode_mp3_stereo_encodes_half :
    (WaveHeader.ofBytes stereo_file).data_length / (WaveHeader.ofBytes stereo_file).fmt_frame_size
      = 2304 ∧
    (encode_mp3 silent_lame [] stereo_fs "s.wav").outcome = .returned none ∧
    (encode_mp3 silent_lame [] stereo_fs "s.wav").calls =
      [{ mono := false, current := 0, read := 1152 }] ∧
    ((encode_mp3 silent_lame [] stereo_fs "s.wav").calls.map EncodeCall.read).sum = 1152 := by
  have hlen : (sample_header RIFF 1 2 4 16 9216).length = 44 := by decide
  have hhdr : WaveHeader.ofBytes stereo_file =
      WaveHeader.ofBytes (sample_header RIFF 1 2 4 16 9216) :=
    ofBytes_append _ _ hlen
  have hrun := encode_mp3_of_valid silent_lame [] stereo_fs "s.wav"
    (sample_header RIFF 1 2 4 16 9216) (List.replicate 9216 0) hlen rfl (by decide)
    (by rw [stereo_header]; decide) (by rw [stereo_header, List.length_replicate])
    (by rw [stereo_header]; decide) (by rw [stereo_header]; decide) true
    { lame := (), mp3 := [], calls := [{ mono := false, current := 0, read := 1152 }] }
    (by rw [stereo_header]; rfl)
  refine ⟨?_, hrun.2, hrun.1, ?_⟩
  · rw [hhdr, stereo_header]
    decide
  · rw [hrun.1]
    decide

end MainC

/-! ## The chunk scan of `src/main.cc` -/

namespace MainCC

theorem read_at (data pre got tail buf : List Nat) (n : Nat)
    (hd : data = pre ++ (got ++ tail)) (hg : got.length = n) :
    IfStream.read { data := data, pos := pre.length, eofbit := false, failbit := false } buf n =
      ({ data := data, pos := pre.length + n, eofbit := false, failbit := false },
        got ++ buf.drop n) := by
  have htake : (data.drop pre.length).take n = got := by
    rw [hd, List.drop_left, List.take_left' hg]
  unfold IfStream.read
  simp only [Bool.false_eq_true, or_self, if_false, htake, hg, if_true]

theorem enc32_length (n : Nat) : (MainC.enc32 n).length = 4 := rfl

theorem chunk_id_eq (tag x : List Nat) (h4 : tag.length = 4) (hb : ∀ b ∈ tag, b < 256) :
    chunk_id (tag ++ x) = tag := by
  unfold chunk_id MainC.bytes4
  rw [List.drop_zero, List.take_left' h4]
  calc tag.map (fun b => b % 256) = tag.map id :=
        List.map_congr_left (fun b hmem => Nat.mod_eq_of_lt (hb b hmem))
    _ = tag := List.map_id tag

theorem chunk_size_eq (tag x : List Nat) (n : Nat) (h4 : tag.length = 4) (hn : n < 2 ^ 32) :
    chunk_size (tag ++ MainC.enc32 n ++ x) = n := by
  rcases tag with _ | ⟨a, _ | ⟨b, _ | ⟨c, _ | ⟨d, _ | ⟨e, t⟩⟩⟩⟩⟩ <;> simp at h4
  simp only [chunk_size, MainC.le32, MainC.enc32, List.cons_append, List.nil_append,
    List.getD_cons_succ, List.getD_cons_zero]
  omega

theorem data_tag_bytes : ∀ b ∈ MainC.DATA, b < 256 := by
  decide

theorem strncmp_data (tag : List Nat) (h4 : tag.length = 4) :
    MainC.strncmp tag MainC.DATA 4 = 0 ↔ tag = MainC.DATA :=
  MainC.strncmp_four tag 100 97 116 97 (by decide) (by decide) (by decide) (by decide)
    (Nat.le_of_eq h4)

/-- The loop, entered right after the read of a chunk header at offset `pre.length`, walks
over the chunks `cs` and stops at the `data` chunk that follows them. -/
theorem skip_chunks (L : Nat) (rest : List Nat) (cs : List RiffChunk) :
    ∀ (data pre buf skipped : List Nat) (fuel : Nat),
      (∀ c ∈ cs, other_tag c.tag ∧ c.body.length < 2 ^ 32) →
      data = pre ++ (chunks_bytes cs ++ (MainC.DATA ++ MainC.enc32 L ++ rest)) →
      buf.length = 8 → cs.length < fuel →
      skip_loop fuel
        { input := (IfStream.read
            { data := data, pos := pre.length, eofbit := false, failbit := false } buf 8).1
          chunk := (IfStream.read
            { data := data, pos := pre.length, eofbit := false, failbit := false } buf 8).2
          skipped := skipped } =
      some
        { input := { data := data, pos := pre.length + chunks_size cs + 8, eofbit := false,
                     failbit := false }
          chunk := MainC.DATA ++ MainC.enc32 L
          skipped := skipped ++ cs.map (fun c => c.body.length) } := by
  induction cs with
  | nil =>
    intro data pre buf skipped fuel _ hd hbuf hfuel
    have hd1 : data = pre ++ ((MainC.DATA ++ MainC.enc32 L) ++ rest) := by
      rw [hd]; rfl
    rw [read_at data pre (MainC.DATA ++ MainC.enc32 L) rest buf 8 hd1 rfl]
    have hdrop : buf.drop 8 = [] := List.drop_eq_nil_of_le (Nat.le_of_eq hbuf)
    obtain ⟨fuel, rfl⟩ : ∃ k, fuel = k + 1 := ⟨fuel - 1, by omega⟩
    have hid : chunk_id (MainC.DATA ++ MainC.enc32 L) = MainC.DATA :=
      chunk_id_eq MainC.DATA _ rfl data_tag_bytes
    simp only [hdrop, List.append_nil, skip_loop, hid]
    rw [if_neg (not_not.mpr ((strncmp_data MainC.DATA rfl).mpr rfl))]
    simp [chunks_size]
  | cons c cs ih =>
    intro data pre buf skipped fuel hcs hd hbuf hfuel
    obtain ⟨⟨h4, hb, hne⟩, hlen⟩ := hcs c (List.mem_cons_self c cs)
    have hd1 : data = pre ++ ((c.tag ++ MainC.enc32 c.body.length) ++
        (c.body ++ (chunks_bytes cs ++ (MainC.DATA ++ MainC.enc32 L ++ rest)))) := by
      rw [hd]
      simp [chunks_bytes, RiffChunk.bytes]
    have hg : (c.tag ++ MainC.enc32 c.body.length).length = 8 := by
      rw [List.length_append, h4, enc32_length]
    rw [read_at data pre _ _ buf 8 hd1 hg]
    have hdrop : buf.drop 8 = [] := List.drop_eq_nil_of_le (Nat.le_of_eq hbuf)
    obtain ⟨fuel, rfl⟩ : ∃ k, fuel = k + 1 := ⟨fuel - 1, by simp at hfuel; omega⟩
    have hid : chunk_id (c.tag ++ MainC.enc32 c.body.length) = c.tag :=
      chunk_id_eq c.tag _ h4 hb
    have hsz : chunk_size (c.tag ++ MainC.enc32 c.body.length) = c.body.length := by
      have := chunk_size_eq c.tag [] c.body.length h4 hlen
      rwa [List.append_nil] at this
    have hcond : MainC.strncmp c.tag MainC.DATA 4 ≠ 0 :=
      fun h => hne ((strncmp_data c.tag h4).mp h)
    simp only [hdrop, List.append_nil, skip_loop, hid, hsz]
    rw [if_pos hcond]
    have hd2 : data = (pre ++ (c.tag ++ MainC.enc32 c.body.length) ++ c.body) ++
        (chunks_bytes cs ++ (MainC.DATA ++ MainC.enc32 L ++ rest)) := by
      rw [hd1]
      simp
    have hpos : pre.length + 8 + c.body.length =
        (pre ++ (c.tag ++ MainC.enc32 c.body.length) ++ c.body).length := by
      simp only [List.length_append, h4, enc32_length]
    have hseek : IfStream.seekg_cur
        { data := data, pos := pre.length + 8, eofbit := false, failbit := false }
        c.body.length =
        { data := data, pos := (pre ++ (c.tag ++ MainC.enc32 c.body.length) ++ c.body).length,
          eofbit := false, failbit := false } := by
      unfold IfStream.seekg_cur
      simp only [Bool.false_eq_true, if_false, hpos]
    rw [hseek]
    have hstep := ih data (pre ++ (c.tag ++ MainC.enc32 c.body.length) ++ c.body)
      (c.tag ++ MainC.enc32 c.body.length) (skipped ++ [c.body.length]) fuel
      (fun c1 h1 => hcs c1 (List.mem_cons_of_mem c h1)) hd2 hg
      (by simp at hfuel; omega)
    have hp : pre.length + 8 + c.body.length + chunks_size cs + 8 =
        pre.length + (8 + c.body.length + chunks_size cs) + 8 := by
      omega
    rw [hstep, ← hpos, hp]
    simp only [chunks_size, List.map_cons, List.append_assoc, List.singleton_append]

theorem chunks_size_eq_sum (cs : List RiffChunk) :
    chunks_size cs = (cs.map (fun c => 8 + c.body.length)).sum := by
  induction cs with
  | nil => rfl
  | cons c cs ih => simp only [chunks_size, List.map_cons, List.sum_cons, ih]

/-- Only the first 36 bytes of a memory image determine the header. -/
theorem header36_append (hdr x : List Nat) (h : hdr.length = 36) :
    WaveHeader.ofBytes (hdr ++ x) = WaveHeader.ofBytes hdr := by
  unfold WaveHeader.ofBytes
  rw [MainC.bytes4_append hdr x 0 (by omega), MainC.bytes4_append hdr x 8 (by omega),
    MainC.bytes4_append hdr x 12 (by omega),
    MainC.le32_append hdr x 4 (by omega), MainC.le32_append hdr x 16 (by omega),
    MainC.le32_append hdr x 24 (by omega), MainC.le32_append hdr x 28 (by omega),
    MainC.le16_append hdr x 20 (by omega),
    MainC.le16_append hdr x 22 (by omega), MainC.le16_append hdr x 32 (by omega),
    MainC.le16_append hdr x 34 (by omega)]

theorem markers_pass (hdr : List Nat) (hmark : leading_markers hdr) :
    ¬ (MainC.strncmp (WaveHeader.ofBytes hdr).riff_chunk_id MainC.RIFF 4 ≠ 0 ∨
      MainC.strncmp (WaveHeader.ofBytes hdr).riff_type MainC.WAVE 4 ≠ 0 ∨
      MainC.strncmp (WaveHeader.ofBytes hdr).fmt_signature MainC.FMT_ 4 ≠ 0) := by
  obtain ⟨h1, h2, h3⟩ := hmark
  rw [h1, h2, h3]
  decide

/-- The header read of `encode_mp3_parse` on a stream of at least 36 bytes. -/
theorem read_header (hdr tail stack : List Nat) (h : hdr.length = 36) :
    IfStream.read { data := hdr ++ tail, pos := 0, eofbit := false, failbit := false } stack 36 =
      ({ data := hdr ++ tail, pos := hdr.length, eofbit := false, failbit := false },
        hdr ++ stack.drop 36) := by
  have h0 := read_at (hdr ++ tail) [] hdr tail stack 36 rfl h
  simp only [List.length_nil, Nat.zero_add] at h0
  rw [h0, h]

/-- Claim C4.  Let a stream consist of 36 leading bytes with the markers `RIFF`, `WAVE`,
`fmt `, then `k >= 0` chunks whose tags are not `data`, then a chunk header `data` with
length `L`, then arbitrary bytes.  With more fuel than there are chunks to skip, the
parsing part of `encode_mp3` returns: it passed to `seekg` exactly the lengths of the
skipped chunks, in order, it stopped with `chunk` holding tag `data` and size `L`, and the
stream is good and positioned at offset `36 + sum (8 + len_i) + 8`, the first payload
byte. -/
theorem encode_mp3_parse_skips_chunks (stack hdr : List Nat) (cs : List RiffChunk) (L : Nat)
    (rest : List Nat) (fuel : Nat) (hhdr : hdr.length = 36) (hmark : leading_markers hdr)
    (hcs : ∀ c ∈ cs, other_tag c.tag ∧ c.body.length < 2 ^ 32) (hL : L < 2 ^ 32)
    (hfuel : cs.length < fuel) :
    ∃ s : Scan,
      encode_mp3_parse fuel stack
          (hdr ++ (chunks_bytes cs ++ (MainC.DATA ++ MainC.enc32 L ++ rest))) =
        some (.scanned (WaveHeader.ofBytes hdr) s) ∧
      s.skipped = cs.map (fun c => c.body.length) ∧
      chunk_id s.chunk = MainC.DATA ∧ chunk_size s.chunk = L ∧
      s.input.pos = 36 + (cs.map (fun c => 8 + c.body.length)).sum + 8 ∧
      s.input.eofbit = false ∧ s.input.failbit = false := by
  refine ⟨{ input := { data := hdr ++ (chunks_bytes cs ++ (MainC.DATA ++ MainC.enc32 L ++ rest))
                       pos := hdr.length + chunks_size cs + 8
                       eofbit := false, failbit := false }
            chunk := MainC.DATA ++ MainC.enc32 L
            skipped := [] ++ cs.map (fun c => c.body.length) }, ?_, ?_, ?_, ?_, ?_, rfl, rfl⟩
  · unfold encode_mp3_parse
    simp only [read_header hdr _ stack hhdr, header36_append hdr _ hhdr]
    rw [if_neg (markers_pass hdr hmark),
      skip_chunks L rest cs _ hdr [0, 0, 0, 0, 0, 0, 0, 0] [] fuel hcs rfl rfl hfuel]
  · rfl
  · exact chunk_id_eq MainC.DATA _ rfl data_tag_bytes
  · have h := chunk_size_eq MainC.DATA [] L rfl hL
    rwa [List.append_nil] at h
  · show hdr.length + chunks_size cs + 8 = _
    rw [hhdr, chunks_size_eq_sum]

/-- Witness of C4: `sample_stream`, with one `LIST` chunk before the `data` chunk. -/
theorem encode_mp3_parse_skips_chunks_witness :
    ∃ s : Scan,
      encode_mp3_parse 2 [] sample_stream =
        some (.scanned (WaveHeader.ofBytes sample_header) s) ∧
      s.skipped = [4] ∧ chunk_id s.chunk = MainC.DATA ∧ chunk_size s.chunk = 4 ∧
      s.input.pos = 36 + (8 + 4 + 0) + 8 ∧ s.input.eofbit = false ∧ s.input.failbit = false :=
  encode_mp3_parse_skips_chunks [] sample_header [list_chunk] 4 [5, 6, 7, 8] 2 (by decide)
    (by decide) (by decide) (by decide) (by decide)

/-- Once `failbit` is set while `chunk` does not hold the tag `data`, no amount of fuel
lets the loop end: `seekg` and `read` leave both the flag and `chunk` as they are. -/
theorem skip_loop_stuck (fuel : Nat) :
    ∀ s : Scan, s.input.failbit = true →
      MainC.strncmp (chunk_id s.chunk) MainC.DATA 4 ≠ 0 → skip_loop fuel s = none := by
  induction fuel with
  | zero =>
    intro s _ _
    rfl
  | succ fuel ih =>
    intro s hfail hcond
    rw [skip_loop, if_pos hcond]
    have hseek : (s.input.seekg_cur (chunk_size s.chunk)).failbit = true := by
      unfold IfStream.seekg_cur
      rw [if_pos hfail]
    have hread : (s.input.seekg_cur (chunk_size s.chunk)).read s.chunk 8 =
        ({ data := (s.input.seekg_cur (chunk_size s.chunk)).data
           pos := (s.input.seekg_cur (chunk_size s.chunk)).pos
           eofbit := (s.input.seekg_cur (chunk_size s.chunk)).eofbit
           failbit := true }, s.chunk) := by
      unfold IfStream.read
      rw [if_pos (Or.inr hseek)]
    simp only [hread]
    exact ih _ rfl hcond

/-- Claim C5 fails on `src/main.cc`: the loop has no end-of-stream test.  On
`no_data_stream`, a valid header followed by one `LIST` chunk and nothing else, the read
after the skip hits the end of the stream, sets `failbit` and leaves `chunk` unchanged, so
the loop condition stays true: for no amount of fuel does the parsing part return. -/
theorem encode_mp3_parse_never_returns (fuel : Nat) (stack : List Nat) :
    encode_mp3_parse fuel stack no_data_stream = none := by
  have hstream : no_data_stream = sample_header ++ chunks_bytes [list_chunk] := rfl
  unfold encode_mp3_parse
  simp only [hstream, read_header sample_header _ stack rfl, header36_append sample_header _ rfl]
  rw [if_neg (markers_pass sample_header (by decide))]
  have hloop : skip_loop fuel
      { input := (IfStream.read
          { data := sample_header ++ chunks_bytes [list_chunk], pos := sample_header.length,
            eofbit := false, failbit := false } [0, 0, 0, 0, 0, 0, 0, 0] 8).1
        chunk := (IfStream.read
          { data := sample_header ++ chunks_bytes [list_chunk], pos := sample_header.length,
            eofbit := false, failbit := false } [0, 0, 0, 0, 0, 0, 0, 0] 8).2
        skipped := [] } = none := by
    cases fuel with
    | zero => rfl
    | succ fuel =>
      have hstep : skip_loop (fuel + 1)
          { input := (IfStream.read
              { data := sample_header ++ chunks_bytes [list_chunk], pos := sample_header.length,
                eofbit := false, failbit := false } [0, 0, 0, 0, 0, 0, 0, 0] 8).1
            chunk := (IfStream.read
              { data := sample_header ++ chunks_bytes [list_chunk], pos := sample_header.length,
                eofbit := false, failbit := false } [0, 0, 0, 0, 0, 0, 0, 0] 8).2
            skipped := [] } =
          skip_loop fuel
            { input := { data := sample_header ++ chunks_bytes [list_chunk], pos := 48,
                         eofbit := true, failbit := true }
              chunk := [76, 73, 83, 84, 4, 0, 0, 0]
              skipped := [4] } := by
        rw [skip_loop]
        rfl
      rw [hstep]
      exact skip_loop_stuck fuel _ rfl (by decide)
  rw [hloop]

end MainCC

/-! ## The encode loop -/

namespace MainC

theorem loop_step_pos (is_mono : Bool) :
    (0 : Int) < (if is_mono = true then FRAME_SIZE else FRAME_SIZE * 2) := by
  cases is_mono <;> decide

/-- The fuel `encode_mp3` passes to the loop suffices: the loop returns. -/
theorem encode_loop_returns {σ : Type} (L : Lame σ) (is_mono : Bool) (in_data : List Nat)
    (out_length num_samples : Int) (fuel : Nat) :
    ∀ (current : Int) (st : Encoding σ), (num_samples - current).toNat < fuel →
      ∃ r, encode_loop L is_mono in_data out_length num_samples fuel current st = some r := by
  induction fuel with
  | zero =>
    intro current st h
    omega
  | succ fuel ih =>
    intro current st h
    rw [encode_loop]
    by_cases hlt : current < num_samples
    · rw [if_pos hlt]
      dsimp only
      by_cases hov : current + (if is_mono = true then FRAME_SIZE else FRAME_SIZE * 2) > INT_MAX
      · rw [if_pos hov]
        exact ⟨_, rfl⟩
      · rw [if_neg hov]
        apply ih
        have hstep := loop_step_pos is_mono
        omega
    · rw [if_neg hlt]
      exact ⟨_, rfl⟩

/-- On the mono path every sample group is handed to the encoder once: when the loop ends
regularly, the block sizes of its calls sum to the number of sample groups not yet
covered. -/
theorem encode_loop_mono_sum {σ : Type} (L : Lame σ) (in_data : List Nat)
    (out_length num_samples : Int) (fuel : Nat) :
    ∀ (current : Int) (st st1 : Encoding σ),
      encode_loop L true in_data out_length num_samples fuel current st = some (true, st1) →
      (st1.calls.map EncodeCall.read).sum =
        (st.calls.map EncodeCall.read).sum + max (num_samples - current) 0 := by
  induction fuel with
  | zero =>
    intro current st st1 h
    simp [encode_loop] at h
  | succ fuel ih =>
    intro current st st1 h
    rw [encode_loop] at h
    by_cases hlt : current < num_samples
    · rw [if_pos hlt] at h
      dsimp only at h
      by_cases hov : current + (if true = true then FRAME_SIZE else FRAME_SIZE * 2) > INT_MAX
      · rw [if_pos hov] at h
        simp at h
      · rw [if_neg hov] at h
        have hrec := ih _ _ _ h
        rw [hrec]
        simp only [List.map_append, List.sum_append, List.map_cons, List.map_nil,
          List.sum_cons, List.sum_nil, FRAME_SIZE, if_true]
        omega
    · rw [if_neg hlt] at h
      simp only [Option.some.injEq, Prod.mk.injEq, true_and] at h
      subst h
      omega

end MainC

namespace MainC

/-- The branch of `encode_mp3` for exhausted fuel is never taken. -/
theorem encode_loop_fuel_suffices {σ : Type} (L : Lame σ) (is_mono : Bool)
    (in_data : List Nat) (out_length num_samples : Int) (st : Encoding σ) :
    encode_loop L is_mono in_data out_length num_samples (num_samples.toNat + 1) 0 st ≠ none := by
  obtain ⟨r, hr⟩ := encode_loop_returns L is_mono in_data out_length num_samples
    (num_samples.toNat + 1) 0 st (by omega)
  rw [hr]
  exact Option.some_ne_none r

end MainC
